import Mathlib

set_option maxHeartbeats 2000000
set_option maxRecDepth 4096

/-!  Verification of `replace_links.py`, a batch link-rewriting script.

Python strings are modelled as `List Char` (a `str` is a sequence of Unicode
code points).  The two regular expressions built in `replace_links_in_file`
consist of `re.escape`d literal components, the alternation `https?`, and one
trailing greedy capture group of the character class excluding whitespace and
the five characters double-quote, single-quote, right-paren, less-than,
greater-than.  Because every variable component is escaped, matching is
literal, and the regex semantics reduce to the literal-matching functions
defined below; `https?` is modelled with its greedy try-s-first backtracking,
and the final greedy `+`-capture, having nothing after it, is `takeWhile`.
`re.sub` scans left to right, replacing non-overlapping matches and resuming
after each match end, which `subRunF` implements with a fuel argument equal
to the input length (each step consumes at least one character).
-/

/-- Character set of Python's regex class backslash-s (and of `str.strip`) for
text patterns: the Unicode whitespace code points recognised by CPython. -/
def isPySpace (c : Char) : Bool :=
  c = ' ' || c = '\t' || c = '\n' || c = '\r' ||
  c.toNat = 0x0b || c.toNat = 0x0c ||
  (0x1c ≤ c.toNat && c.toNat ≤ 0x1f) ||
  c.toNat = 0x85 || c.toNat = 0xa0 || c.toNat = 0x1680 ||
  (0x2000 ≤ c.toNat && c.toNat ≤ 0x200a) ||
  c.toNat = 0x2028 || c.toNat = 0x2029 || c.toNat = 0x202f ||
  c.toNat = 0x205f || c.toNat = 0x3000

/-- Characters admitted by the capture group: everything except whitespace
and double-quote (34), single-quote (39), right paren, and angle brackets. -/
def pathChar (c : Char) : Bool :=
  !(isPySpace c || c.toNat = 34 || c.toNat = 39 ||
    c = ')' || c = '<' || c = '>')

/-- Matches the literal `l` at the front of `cs`, returning the rest. -/
def dropLit : List Char → List Char → Option (List Char)
  | [], cs => some cs
  | _ :: _, [] => none
  | l :: ls, c :: cs => if l = c then dropLit ls cs else none

/-- The characters of the literal `http` that open both patterns. -/
def httpChars : List Char := ['h', 't', 't', 'p']

/-- After the scheme, the regex is the escaped literal `lit` followed by the
greedy capture of one or more `pathChar`s.  Returns (captured path, rest). -/
def matchAfterScheme (lit : List Char) (cs : List Char) :
    Option (List Char × List Char) :=
  (dropLit lit cs).bind (fun cs3 =>
    if cs3.takeWhile pathChar = [] then none
    else some (cs3.takeWhile pathChar, cs3.dropWhile pathChar))

/-- Attempts the whole pattern at the front of `cs`: literal `http`, then the
greedy optional `s` (try with `s` first, fall back without, exactly as the
regex engine backtracks), then `matchAfterScheme`. -/
def matchAt (lit : List Char) (cs : List Char) :
    Option (List Char × List Char) :=
  (dropLit httpChars cs).bind (fun cs1 =>
    if cs1.head? = some 's' then
      (matchAfterScheme lit cs1.tail).orElse (fun _ => matchAfterScheme lit cs1)
    else matchAfterScheme lit cs1)

/-- One pass of `re.sub`: scan left to right, replace each non-overlapping
match using `repl` on the captured path, resume after the match.  `fuel`
bounds the number of scan steps; each step consumes at least one character,
so `fuel = cs.length` suffices. -/
def subRunF (lit : List Char) (repl : List Char → List Char) :
    Nat → List Char → List Char × Nat
  | _, [] => ([], 0)
  | 0, cs => (cs, 0)
  | fuel + 1, c :: cs =>
    match matchAt lit (c :: cs) with
    | some (p, rest) =>
      let r := subRunF lit repl fuel rest
      (repl p ++ r.1, r.2 + 1)
    | none =>
      let r := subRunF lit repl fuel cs
      (c :: r.1, r.2)

/-- `pattern.sub(replacer, content)` together with the number of matches. -/
def subRun (lit : List Char) (repl : List Char → List Char)
    (cs : List Char) : List Char × Nat :=
  subRunF lit repl cs.length cs

/-- Decides whether the pattern matches at any position of `cs`. -/
def hasMatch (lit : List Char) : List Char → Bool
  | [] => false
  | c :: cs => (matchAt lit (c :: cs)).isSome || hasMatch lit cs

/-- The scheme prefix of a URL: `https` when the flag is set, else `http`. -/
def schemeChars (s : Bool) : List Char :=
  if s then ['h', 't', 't', 'p', 's'] else httpChars

/-- Literal part of the jsDelivr pattern after the scheme:
`://cdn.jsdelivr.net/gh/<user>/<repo>@<branch>/`. -/
def jsdelivrLit (u r b : List Char) : List Char :=
  ':' :: "//cdn.jsdelivr.net/gh/".data ++ u ++ '/' :: r ++ '@' :: b ++ ['/']

/-- Literal part of the raw-GitHub pattern after the scheme:
`://raw.githubusercontent.com/<user>/<repo>/<branch>/`. -/
def githubRawLit (u r b : List Char) : List Char :=
  ':' :: "//raw.githubusercontent.com/".data ++ u ++ '/' :: r ++ '/' :: b ++ ['/']

/-- The `replacer` closure: the new URL is `https://<domain>/` followed by
the captured path with its leading slashes stripped (`path.lstrip('/')`). -/
def replacement (domain : List Char) (p : List Char) : List Char :=
  "https://".data ++ domain ++ '/' :: p.dropWhile (fun c => c = '/')

/-- The in-memory text transformation of `replace_links_in_file`: the
jsDelivr substitution, then the raw-GitHub substitution on its output;
the second component is `replacements_made` (accumulated over both). -/
def transformText (u r b domain content : List Char) : List Char × Nat :=
  let s1 := subRun (jsdelivrLit u r b) (replacement domain) content
  let s2 := subRun (githubRawLit u r b) (replacement domain) s1.1
  (s2.1, s1.2 + s2.2)

/-- Model of `parse_repo_string`: `re.match` of `([^/]+)/([^@]+)@(.+)`.
Group 1 is everything before the first slash (nonempty), group 2 everything
from there to the next at-sign (nonempty), group 3 the following maximal run
of non-newline characters (nonempty, since `.` excludes newline and `re.match`
does not anchor the end); no backtracking alternatives exist because each
class excludes its following literal.  The nonemptiness test covers both the
`+` quantifiers and the explicit `if user and repo and branch` check, which
reject exactly the same inputs. -/
def parse_repo_string (cs : List Char) :
    Option (List Char × List Char × List Char) :=
  if (cs.dropWhile (fun c => c ≠ '/')).head? = some '/' then
    if ((cs.dropWhile (fun c => c ≠ '/')).tail.dropWhile
        (fun c => c ≠ '@')).head? = some '@' then
      if cs.takeWhile (fun c => c ≠ '/') = [] ∨
          (cs.dropWhile (fun c => c ≠ '/')).tail.takeWhile
            (fun c => c ≠ '@') = [] ∨
          ((cs.dropWhile (fun c => c ≠ '/')).tail.dropWhile
            (fun c => c ≠ '@')).tail.takeWhile (fun c => c ≠ '\n') = [] then
        none
      else
        some (cs.takeWhile (fun c => c ≠ '/'),
          (cs.dropWhile (fun c => c ≠ '/')).tail.takeWhile (fun c => c ≠ '@'),
          ((cs.dropWhile (fun c => c ≠ '/')).tail.dropWhile
            (fun c => c ≠ '@')).tail.takeWhile (fun c => c ≠ '\n'))
    else none
  else none

/-- Python `str.strip()`: remove whitespace from both ends. -/
def pyStrip (cs : List Char) : List Char :=
  ((cs.dropWhile isPySpace).reverse.dropWhile isPySpace).reverse

/-- Python `str.lower()` restricted to the ASCII range used here. -/
def pyLower (cs : List Char) : List Char :=
  cs.map Char.toLower

/-- Model of `tuple(ext.strip().lower() for ext in extensions.split(',') if ext.strip())`. -/
def parseExtensions (s : List Char) : List (List Char) :=
  ((s.splitOn ',').filter (fun e => pyStrip e ≠ [])).map
    (fun e => pyLower (pyStrip e))

/-- Model of `filename.lower().endswith(file_extensions)`. -/
def selectFile (exts : List (List Char)) (name : List Char) : Bool :=
  exts.any (fun e => e.isSuffixOf (pyLower name))

/-- Where, if anywhere, an exception is raised while processing one file:
`readErr` models `FileNotFoundError` or an `IOError` at `open`/`read`
(before any replacement is counted), `writeErr` an `IOError` at the
write-back.  All are caught inside `replace_links_in_file`. -/
inductive FileErr where
  | ok
  | readErr
  | writeErr
deriving DecidableEq

/-- One file visible to the directory walk. -/
structure FileEntry where
  name : List Char
  err : FileErr
  content : List Char
deriving DecidableEq

/-- Model of `replace_links_in_file`: returns the `replacements_made`
counter that the function returns to `main`, the content of the file on disk
afterwards, and whether a write-back was attempted.  A read error is caught
with the counter still `0`; the text is transformed in memory and written
back only when it differs from the original; a write error is caught after
the counter was already incremented, and leaves the old content on disk. -/
def replace_links_in_file (u r b d : List Char) (e : FileErr)
    (content : List Char) : Nat × List Char × Bool :=
  match e with
  | .readErr => (0, content, false)
  | .ok =>
    let t := transformText u r b d content
    if t.1 ≠ content then (t.2, t.1, true) else (t.2, content, false)
  | .writeErr =>
    let t := transformText u r b d content
    (t.2, content, t.1 ≠ content)

/-- Outcome of the directory walk in `main`. -/
structure WalkResult where
  filesProcessed : Nat
  totalReplacements : Nat
  fs : List FileEntry
deriving DecidableEq

/-- The `os.walk` loop of `main`: every file whose lowercased name ends in
one of the extensions is counted and processed, its returned count added to
the running total; other files are untouched. -/
def processFiles (u r b d : List Char) (exts : List (List Char)) :
    List FileEntry → WalkResult
  | [] => ⟨0, 0, []⟩
  | f :: fs =>
    let w := processFiles u r b d exts fs
    if selectFile exts f.name then
      let res := replace_links_in_file u r b d f.err f.content
      ⟨w.filesProcessed + 1, res.1 + w.totalReplacements,
        ⟨f.name, f.err, res.2.1⟩ :: w.fs⟩
    else
      ⟨w.filesProcessed, w.totalReplacements, f :: w.fs⟩

/-- Result of a whole run of `main`. -/
structure RunResult where
  exitCode : Nat
  filesProcessed : Nat
  totalReplacements : Nat
  fs : List FileEntry
deriving DecidableEq

/-- Model of `main` after argparse: validate the repository string
(`sys.exit(1)` on failure), split and normalise the extension list
(`sys.exit(1)` when nothing remains), then walk the files.  A non-existent
directory makes `os.walk` yield nothing, modelled by an empty file list. -/
def main_run (repoStr extStr domain : List Char)
    (files : List FileEntry) : RunResult :=
  match parse_repo_string repoStr with
  | none => ⟨1, 0, 0, files⟩
  | some (u, r, b) =>
    let exts := parseExtensions extStr
    if exts = [] then ⟨1, 0, 0, files⟩
    else
      let w := processFiles u r b domain exts files
      ⟨0, w.filesProcessed, w.totalReplacements, w.fs⟩

/-- Decides whether `pat` occurs as a contiguous subsequence of `cs`. -/
def containsSeq (pat : List Char) : List Char → Bool
  | [] => pat.isEmpty
  | c :: cs => (dropLit pat (c :: cs)).isSome || containsSeq pat cs

/-! Helper lemmas about literal matching and scanning. -/

theorem dropLit_eq_some (l : List Char) :
    ∀ (cs r : List Char), dropLit l cs = some r ↔ cs = l ++ r := by
  induction l with
  | nil => intro cs r; simp [dropLit]
  | cons a l ih =>
    intro cs r
    cases cs with
    | nil => simp [dropLit]
    | cons c cs =>
      by_cases h : a = c
      · subst h
        simp [dropLit, ih]
      · simp only [dropLit, if_neg h, List.cons_append]
        constructor
        · intro hh; cases hh
        · intro hh
          injection hh with h1 _
          exact absurd h1.symm h

theorem dropLit_append (l r : List Char) : dropLit l (l ++ r) = some r :=
  (dropLit_eq_some l (l ++ r) r).2 rfl

theorem takeWhile_all {p : Char → Bool} :
    ∀ (l : List Char), (∀ c ∈ l, p c = true) → l.takeWhile p = l := by
  intro l
  induction l with
  | nil => intro _; rfl
  | cons a l ih =>
    intro h
    rw [List.takeWhile_cons_of_pos (h a (by simp)),
      ih (fun c hc => h c (by simp [hc]))]

theorem dropWhile_all {p : Char → Bool} :
    ∀ (l : List Char), (∀ c ∈ l, p c = true) → l.dropWhile p = [] := by
  intro l
  induction l with
  | nil => intro _; rfl
  | cons a l ih =>
    intro h
    rw [List.dropWhile_cons_of_pos (h a (by simp))]
    exact ih (fun c hc => h c (by simp [hc]))

theorem takeWhile_append_all {p : Char → Bool} :
    ∀ (l1 l2 : List Char), (∀ c ∈ l1, p c = true) →
      (l1 ++ l2).takeWhile p = l1 ++ l2.takeWhile p := by
  intro l1 l2
  induction l1 with
  | nil => intro _; rfl
  | cons a l ih =>
    intro h
    rw [List.cons_append, List.takeWhile_cons_of_pos (h a (by simp)),
      ih (fun c hc => h c (by simp [hc])), List.cons_append]

theorem dropWhile_append_all {p : Char → Bool} :
    ∀ (l1 l2 : List Char), (∀ c ∈ l1, p c = true) →
      (l1 ++ l2).dropWhile p = l2.dropWhile p := by
  intro l1 l2
  induction l1 with
  | nil => intro _; rfl
  | cons a l ih =>
    intro h
    rw [List.cons_append, List.dropWhile_cons_of_pos (h a (by simp))]
    exact ih (fun c hc => h c (by simp [hc]))

theorem head_dropWhile_not {p : Char → Bool} :
    ∀ (l : List Char) (c : Char), (l.dropWhile p).head? = some c →
      p c = false := by
  intro l
  induction l with
  | nil => intro c h; simp [List.dropWhile] at h
  | cons a l ih =>
    intro c h
    cases ha : p a with
    | true => rw [List.dropWhile_cons_of_pos ha] at h; exact ih c h
    | false =>
      rw [List.dropWhile_cons_of_neg (by simp [ha])] at h
      simp at h
      exact h ▸ ha


theorem matchAfterScheme_append (lit p : List Char) (hp : p ≠ [])
    (hall : ∀ c ∈ p, pathChar c = true) :
    matchAfterScheme lit (lit ++ p) = some (p, []) := by
  unfold matchAfterScheme
  rw [dropLit_append, Option.some_bind]
  rw [takeWhile_all p hall, dropWhile_all p hall]
  simp [hp]

theorem matchAfterScheme_some {lit cs p rest : List Char}
    (h : matchAfterScheme lit cs = some (p, rest)) :
    ∃ cs3, cs = lit ++ cs3 ∧ p = cs3.takeWhile pathChar ∧
      rest = cs3.dropWhile pathChar ∧ p ≠ [] := by
  unfold matchAfterScheme at h
  cases hd : dropLit lit cs with
  | none => rw [hd, Option.none_bind] at h; cases h
  | some cs3 =>
    rw [hd, Option.some_bind] at h
    by_cases ht : cs3.takeWhile pathChar = []
    · rw [if_pos ht] at h; cases h
    · rw [if_neg ht] at h
      have h0 := Option.some.inj h
      have h1 : cs3.takeWhile pathChar = p := congrArg Prod.fst h0
      have h2 : cs3.dropWhile pathChar = rest := congrArg Prod.snd h0
      refine ⟨cs3, (dropLit_eq_some lit cs cs3).1 hd, h1.symm, h2.symm, ?_⟩
      rw [← h1]
      exact ht


theorem matchAt_url (lt p : List Char) (hp : p ≠ [])
    (hall : ∀ c ∈ p, pathChar c = true) (s : Bool) :
    matchAt (':' :: lt) (schemeChars s ++ (':' :: lt) ++ p) = some (p, []) := by
  have hmas := matchAfterScheme_append (':' :: lt) p hp hall
  cases s with
  | false =>
    show matchAt (':' :: lt) (httpChars ++ ((':' :: lt) ++ p)) = some (p, [])
    unfold matchAt
    rw [dropLit_append, Option.some_bind]
    rw [if_neg (by simp)]
    exact hmas
  | true =>
    show matchAt (':' :: lt) (httpChars ++ ('s' :: ((':' :: lt) ++ p))) =
      some (p, [])
    unfold matchAt
    rw [dropLit_append, Option.some_bind]
    rw [if_pos (by simp)]
    simp only [List.tail_cons]
    rw [hmas]
    rfl

theorem matchAt_some_colon {lt cs : List Char}
    {x : List Char × List Char} (h : matchAt (':' :: lt) cs = some x) :
    ':' ∈ cs := by
  unfold matchAt at h
  cases hd : dropLit httpChars cs with
  | none => rw [hd, Option.none_bind] at h; cases h
  | some cs1 =>
    rw [hd, Option.some_bind] at h
    have hcs : cs = httpChars ++ cs1 := (dropLit_eq_some _ _ _).1 hd
    have colonMem : ∀ {t : List Char} {y : List Char × List Char},
        matchAfterScheme (':' :: lt) t = some y → ':' ∈ t := by
      intro t y hy
      obtain ⟨cs3, ht, -, -, -⟩ := matchAfterScheme_some hy
      rw [ht]; simp
    subst hcs
    by_cases hh : cs1.head? = some 's'
    · rw [if_pos hh] at h
      cases hm : matchAfterScheme (':' :: lt) cs1.tail with
      | some y =>
        have h1 : ':' ∈ cs1.tail := colonMem hm
        exact List.mem_append_right _ (List.mem_of_mem_tail h1)
      | none =>
        rw [hm] at h
        have h1 : ':' ∈ cs1 := colonMem (by simpa [Option.orElse] using h)
        exact List.mem_append_right _ h1
    · rw [if_neg hh] at h
      exact List.mem_append_right _ (colonMem h)

theorem subRunF_nil (lit : List Char) (repl : List Char → List Char) :
    ∀ f, subRunF lit repl f [] = ([], 0) := by
  intro f; cases f <;> rfl

theorem subRunF_no_match {lit : List Char} (repl : List Char → List Char) :
    ∀ (cs : List Char) (f : Nat), hasMatch lit cs = false →
      subRunF lit repl f cs = (cs, 0) := by
  intro cs
  induction cs with
  | nil => intro f _; exact subRunF_nil _ _ f
  | cons c cs ih =>
    intro f h
    rw [hasMatch] at h
    simp only [Bool.or_eq_false_iff] at h
    have hm : matchAt lit (c :: cs) = none :=
      Option.not_isSome_iff_eq_none.1 (by simp [h.1])
    cases f with
    | zero => rfl
    | succ f => simp [subRunF, hm, ih f h.2]

theorem subRun_no_match {lit : List Char} {repl : List Char → List Char}
    {cs : List Char} (h : hasMatch lit cs = false) :
    subRun lit repl cs = (cs, 0) :=
  subRunF_no_match repl cs cs.length h

theorem subRun_single {lit : List Char} {repl : List Char → List Char}
    {c : Char} {cs p : List Char} (h : matchAt lit (c :: cs) = some (p, [])) :
    subRun lit repl (c :: cs) = (repl p, 1) := by
  show subRunF lit repl (c :: cs).length (c :: cs) = _
  rw [List.length_cons]
  simp [subRunF, h, subRunF_nil]

theorem subRun_url (lt p : List Char) (repl : List Char → List Char)
    (hp : p ≠ []) (hall : ∀ c ∈ p, pathChar c = true) (s : Bool) :
    subRun (':' :: lt) repl (schemeChars s ++ (':' :: lt) ++ p) =
      (repl p, 1) := by
  have hm := matchAt_url lt p hp hall s
  cases s with
  | false => exact subRun_single hm
  | true => exact subRun_single hm

theorem eq_cons_of_head {l : List Char} {c : Char} (h : l.head? = some c) :
    l = c :: l.tail := by
  cases l with
  | nil => cases h
  | cons a t =>
    simp at h ⊢
    exact h

/-! Claims. -/

/-- C3 (amended): parsing `alice/myrepo@main` yields (alice, myrepo, main)
and `alice/myrepo` is rejected; moreover every accepted string decomposes as
`owner/name@branch` followed by optional trailing text beginning with a
newline, with owner nonempty and slash-free, name nonempty and at-sign-free,
and branch nonempty and newline-free.  The original "accepts exactly" is
refuted by `claim_C3_cex`: not every `owner/name@branch` string with
nonempty parts is accepted. -/
theorem claim_C3 :
    parse_repo_string "alice/myrepo@main".data =
      some ("alice".data, "myrepo".data, "main".data) ∧
    parse_repo_string "alice/myrepo".data = none ∧
    (∀ cs u n b : List Char, parse_repo_string cs = some (u, n, b) →
      u ≠ [] ∧ '/' ∉ u ∧ n ≠ [] ∧ '@' ∉ n ∧ b ≠ [] ∧ '\n' ∉ b ∧
      ∃ t, cs = u ++ '/' :: n ++ '@' :: b ++ t ∧
        (t = [] ∨ t.head? = some '\n')) := by
  refine ⟨by decide, by decide, ?_⟩
  intro cs u n b h
  unfold parse_repo_string at h
  by_cases h1 : (cs.dropWhile (fun c => c ≠ '/')).head? = some '/'
  case neg => rw [if_neg h1] at h; cases h
  rw [if_pos h1] at h
  by_cases h2 : ((cs.dropWhile (fun c => c ≠ '/')).tail.dropWhile
      (fun c => c ≠ '@')).head? = some '@'
  case neg => rw [if_neg h2] at h; cases h
  rw [if_pos h2] at h
  by_cases h3 : cs.takeWhile (fun c => c ≠ '/') = [] ∨
      (cs.dropWhile (fun c => c ≠ '/')).tail.takeWhile
        (fun c => c ≠ '@') = [] ∨
      ((cs.dropWhile (fun c => c ≠ '/')).tail.dropWhile
        (fun c => c ≠ '@')).tail.takeWhile (fun c => c ≠ '\n') = []
  case pos => rw [if_pos h3] at h; cases h
  rw [if_neg h3] at h
  push_neg at h3
  obtain ⟨h3u, h3n, h3b⟩ := h3
  have h0 := Option.some.inj h
  have hu : cs.takeWhile (fun c => c ≠ '/') = u := congrArg Prod.fst h0
  have hn : (cs.dropWhile (fun c => c ≠ '/')).tail.takeWhile
      (fun c => c ≠ '@') = n := congrArg (fun x => x.2.1) h0
  have hb : ((cs.dropWhile (fun c => c ≠ '/')).tail.dropWhile
      (fun c => c ≠ '@')).tail.takeWhile (fun c => c ≠ '\n') = b :=
    congrArg (fun x => x.2.2) h0
  refine ⟨hu ▸ h3u, ?_, hn ▸ h3n, ?_, hb ▸ h3b, ?_, ?_⟩
  · intro hm
    rw [← hu] at hm
    simpa using List.mem_takeWhile_imp hm
  · intro hm
    rw [← hn] at hm
    simpa using List.mem_takeWhile_imp hm
  · intro hm
    rw [← hb] at hm
    simpa using List.mem_takeWhile_imp hm
  · refine ⟨((cs.dropWhile (fun c => c ≠ '/')).tail.dropWhile
      (fun c => c ≠ '@')).tail.dropWhile (fun c => c ≠ '\n'), ?_, ?_⟩
    · conv_lhs => rw [← List.takeWhile_append_dropWhile
        (p := fun c => c ≠ '/') (l := cs)]
      rw [hu, eq_cons_of_head h1]
      conv_lhs => rw [← List.takeWhile_append_dropWhile
        (p := fun c => c ≠ '@') (l := (cs.dropWhile (fun c => c ≠ '/')).tail)]
      rw [hn, eq_cons_of_head h2]
      conv_lhs => rw [← List.takeWhile_append_dropWhile
        (p := fun c => c ≠ '\n')
        (l := ((cs.dropWhile (fun c => c ≠ '/')).tail.dropWhile
          (fun c => c ≠ '@')).tail)]
      rw [hb]
      simp
    · cases hT : ((cs.dropWhile (fun c => c ≠ '/')).tail.dropWhile
          (fun c => c ≠ '@')).tail.dropWhile (fun c => c ≠ '\n') with
      | nil => exact Or.inl rfl
      | cons c t' =>
        refine Or.inr ?_
        have := head_dropWhile_not
          (((cs.dropWhile (fun c => c ≠ '/')).tail.dropWhile
            (fun c => c ≠ '@')).tail) c (by rw [hT]; rfl)
        simp at this
        simp [this]

/-- C3 counterexample: `a/b@\nx` is an `owner/name@branch` string with all
three parts nonempty (branch is the two characters newline, x), yet the
parser rejects it, because the regex dot excludes the newline. -/
theorem claim_C3_cex :
    ("a".data ≠ [] ∧ "b".data ≠ [] ∧ "\nx".data ≠ [] ∧
      "a/b@\nx".data =
        "a".data ++ "/".data ++ "b".data ++ "@".data ++ "\nx".data) ∧
    parse_repo_string "a/b@\nx".data = none :=
  ⟨by decide, by decide⟩

/-- C3 witness: the soundness clause of `claim_C3` instantiated at the
accepted string `alice/myrepo@main`. -/
theorem claim_C3_witness :
    "alice".data ≠ [] ∧ '/' ∉ "alice".data ∧ "myrepo".data ≠ [] ∧
    '@' ∉ "myrepo".data ∧ "main".data ≠ [] ∧ '\n' ∉ "main".data ∧
    ∃ t, "alice/myrepo@main".data =
      "alice".data ++ '/' :: "myrepo".data ++ '@' :: "main".data ++ t ∧
      (t = [] ∨ t.head? = some '\n') :=
  claim_C3.2.2 "alice/myrepo@main".data "alice".data "myrepo".data
    "main".data (by decide)

/-- C10 (amended): the parser accepts every string `u/n@b` with `u` nonempty
and slash-free, `n` nonempty and at-sign-free, and `b` nonempty and
newline-free, returning (u, n, b); the original claim, which allowed a
newline anywhere in `b`, is refuted by `claim_C10_cex`. -/
theorem claim_C10 (u n b : List Char) (hu : u ≠ []) (hus : '/' ∉ u)
    (hn : n ≠ []) (hna : '@' ∉ n) (hb : b ≠ []) (hbn : '\n' ∉ b) :
    parse_repo_string (u ++ '/' :: n ++ '@' :: b) = some (u, n, b) := by
  have hud : ∀ c ∈ u, (fun c => decide (c ≠ '/')) c = true := by
    intro c hc; simp; exact fun e => hus (e ▸ hc)
  have hnd : ∀ c ∈ n, (fun c => decide (c ≠ '@')) c = true := by
    intro c hc; simp; exact fun e => hna (e ▸ hc)
  have hbd : ∀ c ∈ b, (fun c => decide (c ≠ '\n')) c = true := by
    intro c hc; simp; exact fun e => hbn (e ▸ hc)
  have e1 : (u ++ '/' :: (n ++ '@' :: b)).dropWhile (fun c => c ≠ '/') =
      '/' :: (n ++ '@' :: b) := by
    rw [dropWhile_append_all u ('/' :: (n ++ '@' :: b)) hud,
      List.dropWhile_cons_of_neg (by simp)]
  have e2 : (u ++ '/' :: (n ++ '@' :: b)).takeWhile (fun c => c ≠ '/') = u := by
    rw [takeWhile_append_all u ('/' :: (n ++ '@' :: b)) hud,
      List.takeWhile_cons_of_neg (by simp), List.append_nil]
  have e3 : (n ++ '@' :: b).dropWhile (fun c => c ≠ '@') = '@' :: b := by
    rw [dropWhile_append_all n ('@' :: b) hnd,
      List.dropWhile_cons_of_neg (by simp)]
  have e4 : (n ++ '@' :: b).takeWhile (fun c => c ≠ '@') = n := by
    rw [takeWhile_append_all n ('@' :: b) hnd,
      List.takeWhile_cons_of_neg (by simp), List.append_nil]
  have e5 : b.takeWhile (fun c => c ≠ '\n') = b := takeWhile_all b hbd
  have harg : (u ++ '/' :: n ++ '@' :: b) = u ++ '/' :: (n ++ '@' :: b) := by
    simp
  rw [harg]
  unfold parse_repo_string
  rw [e1]
  simp only [List.head?_cons, List.tail_cons]
  rw [e3]
  simp only [List.head?_cons, List.tail_cons]
  rw [e2, e4, e5]
  simp [hu, hn, hb]

/-- C10 counterexample: for u = a, n = b, branch = the three characters
c, newline, d (nonempty, and the claim places no newline restriction on the
branch), parsing does not return the branch: the captured branch stops at
the newline. -/
theorem claim_C10_cex :
    ("a".data ≠ [] ∧ '/' ∉ "a".data ∧ "b".data ≠ [] ∧ '@' ∉ "b".data ∧
      "c\nd".data ≠ []) ∧
    parse_repo_string ("a".data ++ '/' :: "b".data ++ '@' :: "c\nd".data) ≠
      some ("a".data, "b".data, "c\nd".data) :=
  ⟨by decide, by decide⟩

/-- C10 witness: `a/b/c@d` parses to (a, b/c, d), the name containing a
slash, as the claim asserts. -/
theorem claim_C10_witness :
    parse_repo_string ("a".data ++ '/' :: "b/c".data ++ '@' :: "d".data) =
      some ("a".data, "b/c".data, "d".data) :=
  claim_C10 "a".data "b/c".data "d".data (by decide) (by decide) (by decide)
    (by decide) (by decide) (by decide)

theorem subRun_js_url (u r b d p : List Char) (hp : p ≠ [])
    (hall : ∀ c ∈ p, pathChar c = true) (s : Bool) :
    subRun (jsdelivrLit u r b) (replacement d)
      (schemeChars s ++ jsdelivrLit u r b ++ p) = (replacement d p, 1) :=
  subRun_url _ p (replacement d) hp hall s

theorem subRun_raw_url (u r b d p : List Char) (hp : p ≠ [])
    (hall : ∀ c ∈ p, pathChar c = true) (s : Bool) :
    subRun (githubRawLit u r b) (replacement d)
      (schemeChars s ++ githubRawLit u r b ++ p) = (replacement d p, 1) :=
  subRun_url _ p (replacement d) hp hall s

theorem transform_no_match {u r b d c : List Char}
    (h1 : hasMatch (jsdelivrLit u r b) c = false)
    (h2 : hasMatch (githubRawLit u r b) c = false) :
    transformText u r b d c = (c, 0) := by
  unfold transformText
  simp [subRun_no_match h1, subRun_no_match h2]

theorem matchAt_capture {lit cs p rest : List Char}
    (h : matchAt lit cs = some (p, rest)) :
    p ≠ [] ∧ (∀ c ∈ p, pathChar c = true) ∧
    (∀ c, rest.head? = some c → pathChar c = false) := by
  have key : ∀ {t : List Char}, matchAfterScheme lit t = some (p, rest) →
      p ≠ [] ∧ (∀ c ∈ p, pathChar c = true) ∧
      (∀ c, rest.head? = some c → pathChar c = false) := by
    intro t hm
    obtain ⟨cs3, -, hpw, hrw, hne⟩ := matchAfterScheme_some hm
    refine ⟨hne, ?_, ?_⟩
    · intro c hc
      rw [hpw] at hc
      exact List.mem_takeWhile_imp hc
    · intro c hc
      rw [hrw] at hc
      exact head_dropWhile_not cs3 c hc
  unfold matchAt at h
  cases hd : dropLit httpChars cs with
  | none => rw [hd, Option.none_bind] at h; cases h
  | some cs1 =>
    rw [hd, Option.some_bind] at h
    by_cases hh : cs1.head? = some 's'
    · rw [if_pos hh] at h
      cases hm : matchAfterScheme lit cs1.tail with
      | some y =>
        rw [hm] at h
        simp [Option.orElse] at h
        exact key (h ▸ hm)
      | none =>
        rw [hm] at h
        exact key (by simpa [Option.orElse] using h)
    · rw [if_neg hh] at h
      exact key h

/-- C2: with repository alice/myrepo at branch main and domain
cdn.example.com, the two example texts rewrite as the spec states; and for
every configuration, scheme (http or https) and nonempty captured path, a
text consisting of a URL of either configured shape rewrites to
`https://<domain>/<path>` with one replacement counted (the side conditions
state that the other pattern does not also fire on the text involved). -/
theorem claim_C2 :
    (transformText "alice".data "myrepo".data "main".data
        "cdn.example.com".data
        "Intro https://cdn.jsdelivr.net/gh/alice/myrepo@main/images/a.png end".data =
      ("Intro https://cdn.example.com/images/a.png end".data, 1)) ∧
    (transformText "alice".data "myrepo".data "main".data
        "cdn.example.com".data
        "see https://raw.githubusercontent.com/alice/myrepo/main/docs/b.txt ok".data =
      ("see https://cdn.example.com/docs/b.txt ok".data, 1)) ∧
    (∀ (u r b d p : List Char) (s : Bool), p ≠ [] →
      (∀ c ∈ p, pathChar c = true) →
      hasMatch (githubRawLit u r b) (replacement d p) = false →
      transformText u r b d (schemeChars s ++ jsdelivrLit u r b ++ p) =
        (replacement d p, 1)) ∧
    (∀ (u r b d p : List Char) (s : Bool), p ≠ [] →
      (∀ c ∈ p, pathChar c = true) →
      hasMatch (jsdelivrLit u r b)
        (schemeChars s ++ githubRawLit u r b ++ p) = false →
      transformText u r b d (schemeChars s ++ githubRawLit u r b ++ p) =
        (replacement d p, 1)) := by
  refine ⟨by decide, by decide, ?_, ?_⟩
  · intro u r b d p s hp hall hraw
    simp only [transformText]
    rw [subRun_js_url u r b d p hp hall s]
    simp [subRun_no_match hraw]
  · intro u r b d p s hp hall hjs
    simp only [transformText]
    rw [subRun_no_match hjs]
    rw [subRun_raw_url u r b d p hp hall s]
    rfl

/-- C2 witness: the general clauses of `claim_C2` evaluated at the standard
configuration, the https scheme and the example paths. -/
theorem claim_C2_witness :
    (transformText "alice".data "myrepo".data "main".data
        "cdn.example.com".data
        (schemeChars true ++
          jsdelivrLit "alice".data "myrepo".data "main".data ++
          "images/a.png".data) =
      (replacement "cdn.example.com".data "images/a.png".data, 1)) ∧
    (transformText "alice".data "myrepo".data "main".data
        "cdn.example.com".data
        (schemeChars true ++
          githubRawLit "alice".data "myrepo".data "main".data ++
          "docs/b.txt".data) =
      (replacement "cdn.example.com".data "docs/b.txt".data, 1)) :=
  ⟨claim_C2.2.2.1 _ _ _ _ _ true (by decide) (by decide) (by decide),
    claim_C2.2.2.2 _ _ _ _ _ true (by decide) (by decide) (by decide)⟩

/-- C4: texts in which neither configured pattern matches anywhere are
returned unchanged with zero replacements (no false-positive substitution),
and concretely: a differing owner, repository or branch blocks the rewrite,
matching is literal (the configured owner `ali.ce` does not match `alixce`,
but matches `ali.ce` exactly). -/
theorem claim_C4 :
    (∀ u r b d c : List Char,
      hasMatch (jsdelivrLit u r b) c = false →
      hasMatch (githubRawLit u r b) c = false →
      transformText u r b d c = (c, 0)) ∧
    (transformText "alice".data "myrepo".data "main".data
        "cdn.example.com".data
        "https://cdn.jsdelivr.net/gh/bob/myrepo@main/images/a.png".data =
      ("https://cdn.jsdelivr.net/gh/bob/myrepo@main/images/a.png".data, 0)) ∧
    (transformText "alice".data "myrepo".data "main".data
        "cdn.example.com".data
        "https://cdn.jsdelivr.net/gh/alice/other@main/images/a.png".data =
      ("https://cdn.jsdelivr.net/gh/alice/other@main/images/a.png".data, 0)) ∧
    (transformText "alice".data "myrepo".data "main".data
        "cdn.example.com".data
        "https://raw.githubusercontent.com/alice/myrepo/dev/a.png".data =
      ("https://raw.githubusercontent.com/alice/myrepo/dev/a.png".data, 0)) ∧
    (transformText "ali.ce".data "myrepo".data "main".data
        "cdn.example.com".data
        "https://cdn.jsdelivr.net/gh/alixce/myrepo@main/a.png".data =
      ("https://cdn.jsdelivr.net/gh/alixce/myrepo@main/a.png".data, 0)) ∧
    (transformText "ali.ce".data "myrepo".data "main".data
        "cdn.example.com".data
        "https://cdn.jsdelivr.net/gh/ali.ce/myrepo@main/a.png".data =
      ("https://cdn.example.com/a.png".data, 1)) := by
  refine ⟨?_, by decide, by decide, by decide, by decide, by decide⟩
  intro u r b d c h1 h2
  exact transform_no_match h1 h2

/-- C4 witness: the no-match clause of `claim_C4` at the standard
configuration and a text without links. -/
theorem claim_C4_witness :
    transformText "alice".data "myrepo".data "main".data
      "cdn.example.com".data "no links in this text".data =
      ("no links in this text".data, 0) :=
  claim_C4.1 "alice".data "myrepo".data "main".data "cdn.example.com".data
    "no links in this text".data (by decide) (by decide)

/-- C5 (amended): a second application of the two substitutions returns the
first output unchanged with zero further replacements whenever neither
pattern matches anywhere in that output; the universal claim is refuted by
`claim_C5_cex`, where a captured path itself embeds a second matching URL
that only the second pass rewrites. -/
theorem claim_C5 (u r b d t : List Char)
    (h1 : hasMatch (jsdelivrLit u r b) (transformText u r b d t).1 = false)
    (h2 : hasMatch (githubRawLit u r b) (transformText u r b d t).1 = false) :
    transformText u r b d (transformText u r b d t).1 =
      ((transformText u r b d t).1, 0) :=
  transform_no_match h1 h2

/-- C5 counterexample: with the standard configuration, on a jsDelivr URL
whose greedily captured path embeds a second matching URL, the second
application changes the text again and counts one further replacement. -/
theorem claim_C5_cex :
    (transformText "alice".data "myrepo".data "main".data
        "cdn.example.com".data
        (transformText "alice".data "myrepo".data "main".data
          "cdn.example.com".data
          "https://cdn.jsdelivr.net/gh/alice/myrepo@main/a/https://cdn.jsdelivr.net/gh/alice/myrepo@main/b".data).1).1 ≠
      (transformText "alice".data "myrepo".data "main".data
        "cdn.example.com".data
        "https://cdn.jsdelivr.net/gh/alice/myrepo@main/a/https://cdn.jsdelivr.net/gh/alice/myrepo@main/b".data).1 ∧
    (transformText "alice".data "myrepo".data "main".data
        "cdn.example.com".data
        (transformText "alice".data "myrepo".data "main".data
          "cdn.example.com".data
          "https://cdn.jsdelivr.net/gh/alice/myrepo@main/a/https://cdn.jsdelivr.net/gh/alice/myrepo@main/b".data).1).2 ≠ 0 :=
  ⟨by decide, by decide⟩

/-- C5 witness: `claim_C5` at the standard configuration and the spec's
example text, whose first output has no further matches. -/
theorem claim_C5_witness :
    transformText "alice".data "myrepo".data "main".data
      "cdn.example.com".data
      (transformText "alice".data "myrepo".data "main".data
        "cdn.example.com".data
        "x https://cdn.jsdelivr.net/gh/alice/myrepo@main/images/a.png y".data).1 =
      ((transformText "alice".data "myrepo".data "main".data
        "cdn.example.com".data
        "x https://cdn.jsdelivr.net/gh/alice/myrepo@main/images/a.png y".data).1, 0) :=
  claim_C5 "alice".data "myrepo".data "main".data "cdn.example.com".data
    "x https://cdn.jsdelivr.net/gh/alice/myrepo@main/images/a.png y".data
    (by decide) (by decide)

/-- C7 (amended): for both patterns a successful match captures a nonempty
path all of whose characters are path characters and which is maximal (the
following character, if any, is excluded); the replacement URL is
`https://<domain>/` followed by the captured path with all leading slashes
stripped, so its path part never begins with a slash and no double slash
arises at the domain boundary.  The original "never contains a double slash
after the domain" is refuted by `claim_C7_cex`: double slashes inside the
captured path survive. -/
theorem claim_C7 :
    (∀ u r b cs p rest : List Char,
      matchAt (jsdelivrLit u r b) cs = some (p, rest) →
      p ≠ [] ∧ (∀ c ∈ p, pathChar c = true) ∧
      (∀ c, rest.head? = some c → pathChar c = false)) ∧
    (∀ u r b cs p rest : List Char,
      matchAt (githubRawLit u r b) cs = some (p, rest) →
      p ≠ [] ∧ (∀ c ∈ p, pathChar c = true) ∧
      (∀ c, rest.head? = some c → pathChar c = false)) ∧
    (∀ d p : List Char,
      replacement d p =
        "https://".data ++ d ++ '/' :: p.dropWhile (fun c => c = '/') ∧
      ∀ c, (p.dropWhile (fun c => c = '/')).head? = some c → c ≠ '/') ∧
    (transformText "alice".data "myrepo".data "main".data
        "cdn.example.com".data
        "https://cdn.jsdelivr.net/gh/alice/myrepo@main//x".data =
      ("https://cdn.example.com/x".data, 1)) := by
  refine ⟨?_, ?_, ?_, by decide⟩
  · intro u r b cs p rest h
    exact matchAt_capture h
  · intro u r b cs p rest h
    exact matchAt_capture h
  · intro d p
    refine ⟨rfl, ?_⟩
    intro c hc
    have := head_dropWhile_not p c hc
    simpa using this

/-- C7 counterexample: a double slash inside the captured path is preserved,
so the rewritten URL does contain a double slash after the domain. -/
theorem claim_C7_cex :
    (transformText "alice".data "myrepo".data "main".data
        "cdn.example.com".data
        "https://cdn.jsdelivr.net/gh/alice/myrepo@main/a//b".data =
      ("https://cdn.example.com/a//b".data, 1)) ∧
    containsSeq "//".data (("https://cdn.example.com/a//b".data).drop
      "https://cdn.example.com/".data.length) = true :=
  ⟨by decide, by decide⟩

/-- C7 witness: the capture clause of `claim_C7` at a concrete match whose
path ends at a space. -/
theorem claim_C7_witness :
    "a.png".data ≠ [] ∧ (∀ c ∈ "a.png".data, pathChar c = true) ∧
    (∀ c, (" end".data).head? = some c → pathChar c = false) :=
  claim_C7.1 "alice".data "myrepo".data "main".data
    "https://cdn.jsdelivr.net/gh/alice/myrepo@main/a.png end".data
    "a.png".data " end".data (by decide)

/-- C6: a file whose transformed text equals the original is not written
back and keeps its content (in particular whenever neither pattern matches,
with a zero count); a write is attempted exactly when the transformed text
differs from the original. -/
theorem claim_C6 :
    ∀ u r b d c : List Char,
      (hasMatch (jsdelivrLit u r b) c = false →
        hasMatch (githubRawLit u r b) c = false →
        replace_links_in_file u r b d .ok c = (0, c, false)) ∧
      ((replace_links_in_file u r b d .ok c).2.2 = true ↔
        (transformText u r b d c).1 ≠ c) ∧
      ((transformText u r b d c).1 = c →
        replace_links_in_file u r b d .ok c =
          ((transformText u r b d c).2, c, false)) := by
  intro u r b d c
  refine ⟨?_, ?_, ?_⟩
  · intro h1 h2
    have ht := transform_no_match (d := d) h1 h2
    simp [replace_links_in_file, ht]
  · by_cases hc : (transformText u r b d c).1 = c
    · simp [replace_links_in_file, hc]
    · simp [replace_links_in_file, hc]
  · intro hc
    simp [replace_links_in_file, hc]

/-- C6 witness: `claim_C6` at the standard configuration and a text without
links: count zero, no write, content unchanged. -/
theorem claim_C6_witness :
    replace_links_in_file "alice".data "myrepo".data "main".data
      "cdn.example.com".data .ok "plain text".data =
      (0, "plain text".data, false) :=
  (claim_C6 "alice".data "myrepo".data "main".data "cdn.example.com".data
    "plain text".data).1 (by decide) (by decide)

/-- C1 (amended): the walk processes every selected file, continuing past
per-file errors; a file whose error occurs at read contributes zero to the
totals and is left unchanged; but a file whose error occurs at the
write-back still contributes its in-memory replacement count to the run's
totals (refuting the original "counts for that file are not included"),
while its on-disk content stays unchanged. -/
theorem claim_C1 :
    (∀ u r b d : List Char, ∀ exts : List (List Char),
      ∀ files : List FileEntry,
      processFiles u r b d exts files =
        ⟨(files.filter (fun f => selectFile exts f.name)).length,
          ((files.filter (fun f => selectFile exts f.name)).map
            (fun f => (replace_links_in_file u r b d f.err f.content).1)).sum,
          files.map (fun f =>
            if selectFile exts f.name then
              ⟨f.name, f.err,
                (replace_links_in_file u r b d f.err f.content).2.1⟩
            else f)⟩) ∧
    (∀ u r b d c : List Char,
      replace_links_in_file u r b d .readErr c = (0, c, false)) ∧
    (∀ u r b d c : List Char,
      (replace_links_in_file u r b d .writeErr c).1 =
        (transformText u r b d c).2 ∧
      (replace_links_in_file u r b d .writeErr c).2.1 = c) := by
  refine ⟨?_, fun u r b d c => rfl, fun u r b d c => ⟨rfl, rfl⟩⟩
  intro u r b d exts files
  induction files with
  | nil => rfl
  | cons f fs ih =>
    by_cases hs : selectFile exts f.name
    · simp [processFiles, hs, ih, List.filter_cons]
    · simp [processFiles, hs, ih, List.filter_cons]

/-- C1 counterexample: a selected file with one matching link whose write
fails is recovered (its stored content is unchanged), yet the run's total
replacement count includes its one replacement. -/
theorem claim_C1_cex :
    (processFiles "alice".data "myrepo".data "main".data
        "cdn.example.com".data [".md".data]
        [⟨"a.md".data, .writeErr,
          "https://cdn.jsdelivr.net/gh/alice/myrepo@main/a.png".data⟩]).totalReplacements = 1 ∧
    (processFiles "alice".data "myrepo".data "main".data
        "cdn.example.com".data [".md".data]
        [⟨"a.md".data, .writeErr,
          "https://cdn.jsdelivr.net/gh/alice/myrepo@main/a.png".data⟩]).fs =
      [⟨"a.md".data, .writeErr,
        "https://cdn.jsdelivr.net/gh/alice/myrepo@main/a.png".data⟩] :=
  ⟨by decide, by decide⟩

/-- C8: the run exits with status 1 exactly when the repository string is
malformed or no extension survives parsing, in which case no file is touched
and the counters are zero; every other run, including one over no files at
all (a non-existent directory), exits with status 0. -/
theorem claim_C8 :
    (∀ rs es d : List Char, ∀ files : List FileEntry,
      ((main_run rs es d files).exitCode = 1 ↔
        (parse_repo_string rs = none ∨ parseExtensions es = [])) ∧
      ((main_run rs es d files).exitCode = 0 ∨
        (main_run rs es d files).exitCode = 1) ∧
      ((main_run rs es d files).exitCode = 1 →
        (main_run rs es d files).fs = files ∧
        (main_run rs es d files).filesProcessed = 0 ∧
        (main_run rs es d files).totalReplacements = 0)) ∧
    (∀ d : List Char,
      main_run "alice/myrepo@main".data ".md".data d [] = ⟨0, 0, 0, []⟩) := by
  refine ⟨?_, fun d => rfl⟩
  intro rs es d files
  unfold main_run
  cases hp : parse_repo_string rs with
  | none => simp
  | some val =>
    obtain ⟨u, r, b⟩ := val
    by_cases he : parseExtensions es = []
    · simp [he]
    · simp [he]

/-- C8 witness: `claim_C8` at a malformed repository string: exit code 1,
no file processed, file contents untouched. -/
theorem claim_C8_witness :
    (main_run "nope".data ".md".data "cdn.example.com".data
      [⟨"a.md".data, .ok, "x".data⟩]).fs = [⟨"a.md".data, .ok, "x".data⟩] ∧
    (main_run "nope".data ".md".data "cdn.example.com".data
      [⟨"a.md".data, .ok, "x".data⟩]).filesProcessed = 0 ∧
    (main_run "nope".data ".md".data "cdn.example.com".data
      [⟨"a.md".data, .ok, "x".data⟩]).totalReplacements = 0 :=
  (claim_C8.1 "nope".data ".md".data "cdn.example.com".data
    [⟨"a.md".data, .ok, "x".data⟩]).2.2 (by decide)

/-- C9: a file is selected exactly when its lowercased name ends with one of
the parsed extensions; each walk step counts a file exactly when it is
selected; concretely, `notes.txt` is skipped under extensions `.md` and
processed under `.md,.txt`. -/
theorem claim_C9 :
    (∀ es n : List Char,
      (selectFile (parseExtensions es) n = true ↔
        ∃ e ∈ parseExtensions es, e.isSuffixOf (pyLower n) = true)) ∧
    (∀ u r b d : List Char, ∀ exts : List (List Char), ∀ f : FileEntry,
      ∀ fs : List FileEntry,
      (processFiles u r b d exts (f :: fs)).filesProcessed =
        (if selectFile exts f.name then 1 else 0) +
          (processFiles u r b d exts fs).filesProcessed) ∧
    ((main_run "alice/myrepo@main".data ".md".data "cdn.example.com".data
        [⟨"notes.txt".data, .ok, "x".data⟩]).filesProcessed = 0) ∧
    ((main_run "alice/myrepo@main".data ".md,.txt".data
        "cdn.example.com".data
        [⟨"notes.txt".data, .ok, "x".data⟩]).filesProcessed = 1) := by
  refine ⟨?_, ?_, by decide, by decide⟩
  · intro es n
    simp [selectFile, List.any_eq_true]
  · intro u r b d exts f fs
    by_cases hs : selectFile exts f.name
    · simp [processFiles, hs]
      omega
    · simp [processFiles, hs]
